import Mathlib

/-!
Verification development for the SwipeModel core: keyboard geometry
(keyboard_layout.py), feature/target construction and dataset filtering
(dataset.py), parameter initialization and beam-search decoding (model.py).
Floating-point values are modelled as exact rationals; the trained network
behind one decoder step is abstracted as a next-token log-probability
oracle, since the decoding claims quantify over arbitrary model weights.
-/

unseal Rat.add Rat.mul Rat.sub Rat.inv Rat.ofScientific

namespace Swipe

/-! ## Keyboard geometry (keyboard_layout.py) -/

def KEY_WIDTH : ℚ := 68

def KEY_HEIGHT : ℚ := 60

def KEY_SPACING : ℚ := 8

/-- Row definitions: x-offset (special key width + spacing), letter keys, y index. -/
def ROWS : List (ℚ × List Char × ℚ) :=
  [ (95 + KEY_SPACING, ['Q','W','E','R','T','Y','U','I','O','P'], 0),
    (112 + KEY_SPACING, ['A','S','D','F','G','H','J','K','L'], 1),
    (140 + KEY_SPACING, ['Z','X','C','V','B','N','M'], 2) ]

/-- `_compute_layout`: pixel center coordinates for every letter key,
in row-insertion order (the iteration order of the Python dict). -/
def LAYOUT_PX : List (Char × ℚ × ℚ) :=
  ROWS.flatMap (fun row =>
    let xStart := row.1
    let yCenter := row.2.2 * (KEY_HEIGHT + KEY_SPACING) + KEY_HEIGHT / 2
    row.2.1.enum.map (fun ik =>
      (ik.2, xStart + (ik.1 : ℚ) * (KEY_WIDTH + KEY_SPACING) + KEY_WIDTH / 2, yCenter)))

def qListMin : List ℚ → ℚ
  | [] => 0
  | x :: xs => xs.foldl min x

def qListMax : List ℚ → ℚ
  | [] => 0
  | x :: xs => xs.foldl max x

def X_MIN : ℚ := qListMin (LAYOUT_PX.map (fun e => e.2.1)) - KEY_WIDTH / 2

def X_MAX : ℚ := qListMax (LAYOUT_PX.map (fun e => e.2.1)) + KEY_WIDTH / 2

def Y_MIN : ℚ := qListMin (LAYOUT_PX.map (fun e => e.2.2)) - KEY_HEIGHT / 2

def Y_MAX : ℚ := qListMax (LAYOUT_PX.map (fun e => e.2.2)) + KEY_HEIGHT / 2

def LAYOUT_WIDTH : ℚ := X_MAX - X_MIN

def LAYOUT_HEIGHT : ℚ := Y_MAX - Y_MIN

/-- `_normalize`: normalized (0-1) center coordinates, same insertion order. -/
def LAYOUT : List (Char × ℚ × ℚ) :=
  LAYOUT_PX.map (fun e =>
    (e.1, (e.2.1 - X_MIN) / LAYOUT_WIDTH, (e.2.2 - Y_MIN) / LAYOUT_HEIGHT))

def ALPHABET : List Char :=
  ['A','B','C','D','E','F','G','H','I','J','K','L','M',
   'N','O','P','Q','R','S','T','U','V','W','X','Y','Z']

/-- `LETTER_TO_IDX[ch]`: position of a letter in `ALPHABET`. -/
def letterToIdx (c : Char) : ℕ := ALPHABET.indexOf c

/-- `LAYOUT[ch]` lookup (total on the 26 letters; default never reached in use). -/
def layoutCenter (c : Char) : ℚ × ℚ :=
  match LAYOUT.find? (fun e => e.1 = c) with
  | some e => (e.2.1, e.2.2)
  | none => (0, 0)

/-- `CENTERS`: normalized centers in `ALPHABET` order. -/
def CENTERS : List (ℚ × ℚ) := ALPHABET.map layoutCenter

/-- Center of the i-th letter of the alphabet (the entry `CENTERS[i]`). -/
def centerIdx (i : Fin 26) : ℚ × ℚ := layoutCenter (ALPHABET.getD i 'A')

/-- Squared Euclidean distance used by `nearest_key` (it compares `d = dx**2 + dy**2`). -/
def sqDist (x y cx cy : ℚ) : ℚ := (x - cx) * (x - cx) + (y - cy) * (y - cy)

/-- Squared distance from a point to the i-th alphabet key center. -/
def sqDistIdx (x y : ℚ) (i : Fin 26) : ℚ :=
  sqDist x y (centerIdx i).1 (centerIdx i).2

/-- The loop body of `nearest_key`: iterate over the layout entries keeping the
first strictly closer key; `best` starts as `'A'` with distance `+inf`, which the
`none` case models (the first entry always replaces it). -/
def nearestAux (x y : ℚ) : Char → Option ℚ → List (Char × ℚ × ℚ) → Char
  | best, _, [] => best
  | _, none, e :: rest => nearestAux x y e.1 (some (sqDist x y e.2.1 e.2.2)) rest
  | best, some bd, e :: rest =>
      if sqDist x y e.2.1 e.2.2 < bd then
        nearestAux x y e.1 (some (sqDist x y e.2.1 e.2.2)) rest
      else nearestAux x y best (some bd) rest

/-- `nearest_key(x, y)`: nearest letter key, iterating `LAYOUT` in insertion order. -/
def nearest_key (x y : ℚ) : Char := nearestAux x y 'A' none LAYOUT

/-- `key_proximity(x, y)[i] = 1 / (1 + 10 * sqrt(dx**2 + dy**2))` for the i-th
alphabet key; the Euclidean square root lives in `ℝ`. -/
noncomputable def key_proximity (x y : ℚ) (i : Fin 26) : ℝ :=
  1 / (1 + Real.sqrt ((sqDistIdx x y i : ℚ) : ℝ) * 10)

/-- `i` is the index `argmax` would return on `v`: no entry is larger, and every
earlier entry is strictly smaller. -/
def IsFirstMax (v : Fin 26 → ℝ) (i : Fin 26) : Prop :=
  (∀ j, v j ≤ v i) ∧ ∀ j, j < i → v j < v i

/-! ## Tokens and dataset constants (dataset.py) -/

def PAD_TOKEN : ℕ := 0

def SOS_TOKEN : ℕ := 27

def EOS_TOKEN : ℕ := 28

def VOCAB_SIZE : ℕ := 29

def MAX_STROKE_LEN : ℕ := 80

def MAX_WORD_LEN : ℕ := 20

/-! ## FUTO loading and filtering (dataset.py, `load_futo_dataset`) -/

/-- The mobile-layout rows: keys and fixed y, as in `_MOBILE_ROWS`. -/
def MOBILE_ROWS : List (List Char × ℚ) :=
  [ (['Q','W','E','R','T','Y','U','I','O','P'], 167/1000),
    (['A','S','D','F','G','H','J','K','L'], 1/2),
    (['Z','X','C','V','B','N','M'], 833/1000) ]

/-- `_MOBILE_LAYOUT`: x = margin + (i + 0.5) * span / n with margin 0.05, span 0.9. -/
def MOBILE_LAYOUT : List (Char × ℚ × ℚ) :=
  MOBILE_ROWS.flatMap (fun row =>
    let n : ℚ := row.1.length
    row.1.enum.map (fun ik =>
      (ik.2, 1/20 + ((ik.1 : ℚ) + 1/2) * (9/10) / n, row.2)))

/-- `_nearest_mobile_key`: same loop as `nearest_key` over the mobile layout. -/
def nearest_mobile_key (x y : ℚ) : Char := nearestAux x y 'A' none MOBILE_LAYOUT

/-- `remap_point`: mobile coordinate to the desktop layout via nearest-key projection. -/
def remap_point (mx my : ℚ) : ℚ × ℚ := layoutCenter (nearest_mobile_key mx my)

/-- One raw touch sample from the FUTO dataset; `x`/`y`/`t` may be missing. -/
structure RawPoint where
  x : Option ℚ
  y : Option ℚ
  t : Option ℚ
deriving DecidableEq

/-- The coordinate-extraction loop: fails on the first sample with a missing
x or y; a missing t becomes 0.0. -/
def extractXYT : List RawPoint → Option (List ℚ × List ℚ × List ℚ)
  | [] => some ([], [], [])
  | p :: ps =>
    match p.x, p.y with
    | some px, some py =>
        match extractXYT ps with
        | some (xs, ys, ts) => some (px :: xs, py :: ys, (p.t.getD 0) :: ts)
        | none => none
    | _, _ => none

/-- `np.diff(ts, prepend=ts[0])`: first delta 0, then successive differences. -/
def diffPrepend : List ℚ → List ℚ
  | [] => []
  | t0 :: rest => List.zipWith (fun a b => a - b) (t0 :: rest) (t0 :: t0 :: rest)

/-- `np.clip(d, 0, 1.0)`. -/
def clip01 (d : ℚ) : ℚ := max 0 (min d 1)

def zip3Q : List ℚ → List ℚ → List ℚ → List (ℚ × ℚ × ℚ)
  | x :: xs, y :: ys, d :: ds => (x, y, d) :: zip3Q xs ys ds
  | _, _, _ => []

/-- Python `str.isalpha()` over our character lists. -/
def isAlphaStr (w : List Char) : Bool := !w.isEmpty && w.all (fun c => c.isAlpha)

/-- One iteration of the row loop of `load_futo_dataset`: either the row is
skipped (`none` — it never produces an encoded trace and is not retried) or it
yields the remapped `(points, word)` sample. -/
def parseFutoRow (word : List Char) (touchData : List RawPoint) :
    Option (List (ℚ × ℚ × ℚ) × List Char) :=
  if word = [] ∨ touchData = [] ∨ touchData.length < 2 then none
  else if isAlphaStr word = false ∨ MAX_WORD_LEN < word.length then none
  else
    match extractXYT touchData with
    | none => none
    | some (xs, ys, ts) =>
        let dts := (diffPrepend (ts.map (fun t => t / 1000))).map clip01
        let points := (zip3Q xs ys dts).map (fun p =>
          let r := remap_point p.1 p.2.1
          (r.1, r.2, p.2.2))
        some (points, word)

/-! ## Training-target construction (dataset.py, `SwipeDataset.__getitem__`) -/

/-- The letter tokens of `word.upper()[:MAX_WORD_LEN]`, keeping only characters
found in `LETTER_TO_IDX`, each 1-indexed. -/
def wordLetterTokens (word : List Char) : List ℕ :=
  ((word.map Char.toUpper).take MAX_WORD_LEN).filterMap (fun ch =>
    if ch ∈ ALPHABET then some (letterToIdx ch + 1) else none)

/-- Target construction: `[SOS] ++ letters ++ [EOS]`, right-padded with PAD
to `MAX_WORD_LEN + 2`. -/
def buildTarget (word : List Char) : List ℕ :=
  let t := SOS_TOKEN :: wordLetterTokens word ++ [EOS_TOKEN]
  t ++ List.replicate (MAX_WORD_LEN + 2 - t.length) PAD_TOKEN

/-! ## Beam search (model.py, `SwipeTransformer.predict`)

One decoder forward pass followed by `log_softmax` at the last position is
abstracted as an oracle `M` giving the log-probability of each next token
for a given token prefix: the claims about `predict` quantify over arbitrary
model weights, and every weight assignment induces such an oracle. -/

/-- Next-token log-probability oracle standing for `decode` + `log_softmax`. -/
def M : Type := List ℕ → ℕ → ℚ

/-- A beam: `(tokens, cumulative_log_prob)`. -/
def Beam : Type := List ℕ × ℚ

instance : DecidableEq Beam := by unfold Beam; infer_instance

/-- `tokens[-1]` (every beam in a run is nonempty, so the default is inert). -/
def lastTok (ts : List ℕ) : ℕ := ts.getLastD PAD_TOKEN

/-- Left-to-right scan keeping the current best token; only a strictly larger
value replaces it, so ties resolve to the earlier index. -/
def argmaxGo (f : ℕ → ℚ) : ℕ → List ℕ → ℕ
  | b, [] => b
  | b, t :: ts => if f b < f t then argmaxGo f t ts else argmaxGo f b ts

/-- First index attaining the maximal value of `f` on `ts` (the `torch.topk`
selection order for one element: ties resolve to the earlier index). -/
def argmaxTok (f : ℕ → ℚ) : List ℕ → Option ℕ
  | [] => none
  | t :: ts => some (argmaxGo f t ts)

/-- `torch.topk(log_probs, k)` index list: repeatedly extract the current
first maximum (values descending, earlier index on ties). -/
def topkAux (f : ℕ → ℚ) : ℕ → List ℕ → List ℕ
  | 0, _ => []
  | k + 1, ts =>
    match argmaxTok f ts with
    | none => []
    | some b => b :: topkAux f k (ts.erase b)

def topk (f : ℕ → ℚ) (k : ℕ) : List ℕ := topkAux f k (List.range VOCAB_SIZE)

/-- Stable insertion for descending order by `key` (equal keys keep the
earlier element first), matching `list.sort(key=…, reverse=True)`. -/
def insDesc (key : α → ℚ) (x : α) : List α → List α
  | [] => [x]
  | y :: ys => if key y ≤ key x then x :: y :: ys else y :: insDesc key x ys

/-- Stable descending sort by `key`. -/
def sortDesc (key : α → ℚ) : List α → List α
  | [] => []
  | x :: xs => insDesc key x (sortDesc key xs)

/-- Expansion of one active beam into its top-`k` continuations. -/
def expandBeam (m : M) (k : ℕ) (b : Beam) : List Beam :=
  (topk (m b.1) k).map (fun t => (b.1 ++ [t], b.2 + m b.1 t))

/-- One pass over the active beams: finished beams (last token EOS) are moved
out in order, the rest contribute their expansions to the candidate pool. -/
def runStep (m : M) (k : ℕ) : List Beam → List Beam × List Beam
  | [] => ([], [])
  | b :: bs =>
    let rest := runStep m k bs
    if lastTok b.1 = EOS_TOKEN then (rest.1, b :: rest.2)
    else (expandBeam m k b ++ rest.1, rest.2)

/-- The step loop of `predict`: up to `n` more steps; an empty candidate pool
breaks out of the loop leaving `beams` untouched; otherwise the pool is sorted
by cumulative score (descending, stable) and truncated to the beam width. -/
def beamLoop (m : M) (k : ℕ) : ℕ → List Beam → List Beam → List Beam × List Beam
  | 0, beams, fin => (beams, fin)
  | n + 1, beams, fin =>
    if (runStep m k beams).1 = [] then (beams, fin ++ (runStep m k beams).2)
    else beamLoop m k n ((sortDesc (fun b => b.2) (runStep m k beams).1).take k)
      (fin ++ (runStep m k beams).2)

/-- `score / max(len(tokens), 1)`: the final ranking key. -/
def normScore (b : Beam) : ℚ := b.2 / (max b.1.length 1 : ℕ)

/-- `finished.extend(beams)` after the loop: finished beams followed by the
still-active ones. -/
def mergedBeams (m : M) (k maxLen : ℕ) : List Beam :=
  (beamLoop m k maxLen [([SOS_TOKEN], 0)] []).2 ++
    (beamLoop m k maxLen [([SOS_TOKEN], 0)] []).1

/-- `predict` for one batch item: run the loop from the single `[SOS]` beam,
merge, sort by length-normalized score, return the top `k` pairs. -/
def predict (m : M) (k maxLen : ℕ) : List Beam :=
  (sortDesc normScore (mergedBeams m k maxLen)).take k

/-- Greedy decoding as `predict` with beam width 1 actually behaves: extend by
the single highest-probability token (PAD included), stop at EOS or after
`n` extensions. -/
def greedyCode (m : M) : ℕ → List ℕ → List ℕ
  | 0, ts => ts
  | n + 1, ts =>
    if lastTok ts = EOS_TOKEN then ts
    else
      match argmaxTok (m ts) (List.range VOCAB_SIZE) with
      | none => ts
      | some t => greedyCode m n (ts ++ [t])

/-- Modelled from the spec: "pure greedy decoding (always extend by the single
highest-probability non-PAD token, excluding PAD from candidacy)" — the
comparison point for the beam-width-1 refinement claim; this selection rule
appears nowhere in `model.py`. -/
def greedySpec (m : M) : ℕ → List ℕ → List ℕ
  | 0, ts => ts
  | n + 1, ts =>
    if lastTok ts = EOS_TOKEN then ts
    else
      match argmaxTok (m ts) ((List.range VOCAB_SIZE).filter (fun t => t ≠ PAD_TOKEN)) with
      | none => ts
      | some t => greedySpec m n (ts ++ [t])

/-! ## Parameter initialization (model.py, `__init__` / `_init_weights`)

`nn.Embedding(VOCAB_SIZE, d_model, padding_idx=PAD_TOKEN)` zeroes the PAD row
when the module is constructed; `_init_weights` then applies
`nn.init.xavier_uniform_` to every parameter with `dim() > 1` — which includes
`token_embed.weight` — and leaves 1-D parameters (biases) untouched.  The
random draws are inputs of the model. -/

/-- The parameters relevant to the claim: the token-embedding matrix
(2-D, default 29 x 128), one weight matrix and one bias vector of a linear
layer standing for the other parameters. -/
structure SwipeParams where
  token_embed : Fin 29 → Fin 128 → ℝ
  output_proj_weight : Fin 29 → Fin 128 → ℝ
  output_proj_bias : Fin 29 → ℝ

/-- `nn.Embedding` reset with `padding_idx = PAD_TOKEN`: the freshly drawn
weight with the PAD row filled with zeros. -/
def embeddingReset (w : Fin 29 → Fin 128 → ℝ) : Fin 29 → Fin 128 → ℝ :=
  fun i j => if (i : ℕ) = PAD_TOKEN then 0 else w i j

/-- `_init_weights`: every parameter with `dim() > 1` is overwritten by a
Xavier-uniform draw; 1-D parameters are left as they are. -/
def initWeights (xavierEmbed xavierProj : Fin 29 → Fin 128 → ℝ)
    (p : SwipeParams) : SwipeParams :=
  { token_embed := xavierEmbed
    output_proj_weight := xavierProj
    output_proj_bias := p.output_proj_bias }

/-- `SwipeTransformer.__init__`: build the modules (the embedding reset zeroes
the PAD row), then call `_init_weights`. -/
def constructTransformer (embedDraw xavierEmbed xavierProj : Fin 29 → Fin 128 → ℝ)
    (w0 : Fin 29 → Fin 128 → ℝ) (b0 : Fin 29 → ℝ) : SwipeParams :=
  initWeights xavierEmbed xavierProj
    { token_embed := embeddingReset embedDraw
      output_proj_weight := w0
      output_proj_bias := b0 }

/-- The bound of `xavier_uniform_` for a matrix with the given fan-in/fan-out:
`sqrt(6 / (fan_in + fan_out))`. -/
noncomputable def xavierBound (fanIn fanOut : ℕ) : ℝ :=
  Real.sqrt (6 / ((fanIn : ℝ) + fanOut))

/-- A matrix is an admissible `xavier_uniform_` draw for a 29 x 128 parameter:
every entry lies in `[-a, a]` with `a = sqrt(6 / (29 + 128))`. -/
def XavierDraw (w : Fin 29 → Fin 128 → ℝ) : Prop :=
  ∀ i j, |w i j| ≤ xavierBound 128 29

/-! ## Concrete next-token oracles used to evaluate the decoder -/

/-- Constant log-probability oracle. -/
def oracleConst : M := fun _ _ => 0

/-- Oracle preferring EOS from the very first step. -/
def oracleEOSTop : M := fun _ t => if t = EOS_TOKEN then -1 else -2

/-- Oracle always preferring the letter token 1 ('A'); EOS is never chosen. -/
def oracleLetterTop : M := fun _ t => if t = 1 then 0 else -1

/-- Oracle preferring PAD for the first generated token, then EOS. -/
def oraclePadTop : M := fun ts t =>
  if ts = [SOS_TOKEN] then (if t = PAD_TOKEN then 0 else -1)
  else (if t = EOS_TOKEN then 0 else -1)

/-- Oracle driving beam width 2 into a state where both active beams append
EOS in the same step. -/
def oracleTwinEOS : M := fun ts t =>
  match ts with
  | [27] => if t = 1 then -1 else if t = 2 then -101/100 else -10
  | [27, 1] => if t = 28 then -1/10 else if t = 3 then -2/10 else -10
  | [27, 2] => if t = 28 then -2/100 else -10
  | _ => if t = 28 then -1/100 else -10

/-! ## Lemmas: stable descending sort -/

theorem mem_insDesc {key : α → ℚ} {x a : α} : ∀ {l : List α},
    a ∈ insDesc key x l ↔ a = x ∨ a ∈ l := by
  intro l
  induction l with
  | nil => simp [insDesc]
  | cons y ys ih =>
      by_cases h : key y ≤ key x
      · simp [insDesc, h]
      · simp only [insDesc, if_neg h, List.mem_cons, ih]
        tauto

theorem mem_sortDesc {key : α → ℚ} {a : α} : ∀ {l : List α},
    a ∈ sortDesc key l ↔ a ∈ l := by
  intro l
  induction l with
  | nil => simp [sortDesc]
  | cons y ys ih => simp [sortDesc, mem_insDesc, ih]

theorem length_insDesc {key : α → ℚ} {x : α} : ∀ {l : List α},
    (insDesc key x l).length = l.length + 1 := by
  intro l
  induction l with
  | nil => simp [insDesc]
  | cons y ys ih =>
      by_cases h : key y ≤ key x
      · simp [insDesc, h]
      · simp [insDesc, h, ih]

theorem length_sortDesc {key : α → ℚ} : ∀ {l : List α},
    (sortDesc key l).length = l.length := by
  intro l
  induction l with
  | nil => rfl
  | cons y ys ih => simp [sortDesc, length_insDesc, ih]

theorem pairwise_insDesc {key : α → ℚ} {x : α} : ∀ {l : List α},
    l.Pairwise (fun a b => key b ≤ key a) →
    (insDesc key x l).Pairwise (fun a b => key b ≤ key a) := by
  intro l
  induction l with
  | nil => intro; simp [insDesc]
  | cons y ys ih =>
      intro hp
      rw [List.pairwise_cons] at hp
      by_cases h : key y ≤ key x
      · rw [insDesc, if_pos h]
        refine List.Pairwise.cons ?_ (List.Pairwise.cons hp.1 hp.2)
        intro b hb
        rcases List.mem_cons.mp hb with rfl | hb
        · exact h
        · exact le_trans (hp.1 b hb) h
      · rw [insDesc, if_neg h]
        refine List.Pairwise.cons ?_ (ih hp.2)
        intro b hb
        rcases mem_insDesc.mp hb with rfl | hb
        · exact le_of_lt (lt_of_not_le h)
        · exact hp.1 b hb

theorem pairwise_sortDesc {key : α → ℚ} : ∀ (l : List α),
    (sortDesc key l).Pairwise (fun a b => key b ≤ key a) := by
  intro l
  induction l with
  | nil => simp [sortDesc]
  | cons y ys ih => exact pairwise_insDesc ih

/-! ## Lemmas: one step of the beam loop -/

theorem runStep_snd_subset {m : M} {k : ℕ} : ∀ {beams : List Beam} {b : Beam},
    b ∈ (runStep m k beams).2 → b ∈ beams := by
  intro beams
  induction beams with
  | nil => intro b h; simpa [runStep] using h
  | cons p ps ih =>
      intro b h
      by_cases he : lastTok p.1 = EOS_TOKEN
      · rw [runStep, if_pos he] at h
        rcases List.mem_cons.mp h with rfl | h
        · exact List.mem_cons_self _ _
        · exact List.mem_cons_of_mem _ (ih h)
      · rw [runStep, if_neg he] at h
        exact List.mem_cons_of_mem _ (ih h)

theorem runStep_fst_shape {m : M} {k : ℕ} : ∀ {beams : List Beam} {b : Beam},
    b ∈ (runStep m k beams).1 →
    ∃ p ∈ beams, ∃ t : ℕ, b.1 = p.1 ++ [t] := by
  intro beams
  induction beams with
  | nil => intro b h; simp [runStep] at h
  | cons p ps ih =>
      intro b h
      by_cases he : lastTok p.1 = EOS_TOKEN
      · rw [runStep, if_pos he] at h
        obtain ⟨q, hq, t, ht⟩ := ih h
        exact ⟨q, List.mem_cons_of_mem _ hq, t, ht⟩
      · rw [runStep, if_neg he] at h
        rcases List.mem_append.mp h with h | h
        · obtain ⟨t, _, rfl⟩ := List.mem_map.mp h
          exact ⟨p, List.mem_cons_self _ _, t, rfl⟩
        · obtain ⟨q, hq, t, ht⟩ := ih h
          exact ⟨q, List.mem_cons_of_mem _ hq, t, ht⟩

/-! ## Claim C1: a zero-valid-length trace and the emptiness of the result -/

theorem beamLoop_fst_ne_nil (m : M) (k : ℕ) (hk : 1 ≤ k) :
    ∀ (n : ℕ) (beams fin : List Beam), beams ≠ [] →
    (beamLoop m k n beams fin).1 ≠ [] := by
  intro n
  induction n with
  | zero => intro beams fin h; simpa [beamLoop] using h
  | succ n ih =>
      intro beams fin h
      rw [beamLoop]
      by_cases hc : (runStep m k beams).1 = []
      · simpa [hc] using h
      · rw [if_neg hc]
        refine ih _ _ ?_
        have hlen : 0 < (sortDesc (fun b => b.2) (runStep m k beams).1).length := by
          rw [length_sortDesc]
          exact List.length_pos.mpr hc
        intro htake
        have := congrArg List.length htake
        rw [List.length_take] at this
        simp only [List.length_nil] at this
        omega

/-- Amended claim C1: whatever the model weights (hence whatever log
probabilities the masked encoder memory of a zero-valid-length trace
produces), `predict` returns a NON-empty candidate list for every supported
beam width — the loop always leaves at least one beam to merge. -/
theorem c1_beam_result_nonempty (m : M) (k maxLen : ℕ)
    (hk : 1 ≤ k) (hvocab : k ≤ VOCAB_SIZE) :
    predict m k maxLen ≠ [] := by
  have hne : mergedBeams m k maxLen ≠ [] := by
    unfold mergedBeams
    have := beamLoop_fst_ne_nil m k hk maxLen [([SOS_TOKEN], 0)] [] (by simp)
    intro h
    rcases List.append_eq_nil.mp h with ⟨_, h2⟩
    exact this h2
  unfold predict
  intro h
  rcases (List.take_eq_nil_iff).mp h with h | h
  · omega
  · have := congrArg List.length h
    rw [length_sortDesc] at this
    exact hne (List.length_eq_zero.mp (by simpa using this))

set_option maxRecDepth 200000 in
/-- Counterexample to claim C1 as stated: with the code's default beam width 5
and step bound 22, a decode (here under a constant log-probability oracle,
as produced by some weight assignment) returns a non-empty candidate list —
`predict` never returns `[]`, also when `valid_length = 0`. -/
theorem c1_counterexample : predict oracleConst 5 22 ≠ [] := by decide

set_option maxRecDepth 200000 in
theorem c1_witness : 1 ≤ 2 ∧ 2 ≤ VOCAB_SIZE ∧ predict oracleConst 2 22 ≠ [] :=
  ⟨by decide, by decide, c1_beam_result_nonempty oracleConst 2 22 (by decide) (by decide)⟩

/-! ## Claim C3: the final ranking -/

/-- Amended claim C3: the final ranking sorts the merged finished/active pool
descending by the length-normalized score `score / max(len, 1)` and returns
the top `k` elements of that pool — but each returned pair keeps its raw
cumulative score; only the sort key is normalized. -/
theorem c3_final_ranking (m : M) (k maxLen : ℕ) :
    (∀ p ∈ predict m k maxLen, p ∈ mergedBeams m k maxLen) ∧
    (predict m k maxLen).Pairwise (fun a b => normScore b ≤ normScore a) ∧
    (predict m k maxLen).length = min k (mergedBeams m k maxLen).length := by
  refine ⟨?_, ?_, ?_⟩
  · intro p hp
    exact mem_sortDesc.mp (List.mem_of_mem_take hp)
  · exact (pairwise_sortDesc (mergedBeams m k maxLen)).sublist
      (List.take_sublist _ _)
  · rw [predict, List.length_take, length_sortDesc]

set_option maxRecDepth 200000 in
/-- Counterexample to claim C3 as stated: under an oracle that immediately
prefers EOS (log-probability -1), the single returned candidate is
`([SOS, EOS], -1)`: its score component is the raw cumulative score -1,
not the length-normalized -1/2 used as the sort key. -/
theorem c3_counterexample :
    predict oracleEOSTop 1 22 = [([27, 28], -1)] ∧
    normScore ([27, 28], -1) = -1/2 ∧ ((-1 : ℚ) ≠ -1/2) := by
  refine ⟨by decide, by decide, by decide⟩

set_option maxRecDepth 200000 in
theorem c3_witness :
    (([27, 28], (-1 : ℚ)) ∈ predict oracleEOSTop 1 22) ∧
    (([27, 28], (-1 : ℚ)) ∈ mergedBeams oracleEOSTop 1 22) :=
  ⟨by decide, (c3_final_ranking oracleEOSTop 1 22).1 _ (by decide)⟩

/-! ## Claim C10: duplicated candidates when every active beam has finished -/

/-! ## Claim C2: beam width 1 versus greedy decoding -/

theorem argmaxTok_ne_nil (f : ℕ → ℚ) (ts : List ℕ) (h : ts ≠ []) :
    ∃ t, argmaxTok f ts = some t := by
  cases ts with
  | nil => exact absurd rfl h
  | cons a l => exact ⟨argmaxGo f a l, rfl⟩

theorem topk_one {f : ℕ → ℚ} {t : ℕ}
    (h : argmaxTok f (List.range VOCAB_SIZE) = some t) : topk f 1 = [t] := by
  simp [topk, topkAux, h]

theorem beamLoop_width_one (m : M) : ∀ (n : ℕ) (b : Beam),
    ((beamLoop m 1 n [b] []).1.map Prod.fst = [greedyCode m n b.1]) ∧
    ((beamLoop m 1 n [b] []).2 = [] ∨
      (beamLoop m 1 n [b] []).2 = (beamLoop m 1 n [b] []).1) := by
  intro n
  induction n with
  | zero =>
      intro b
      exact ⟨by simp [beamLoop, greedyCode], Or.inl rfl⟩
  | succ n ih =>
      intro b
      by_cases he : lastTok b.1 = EOS_TOKEN
      · have hrs : runStep m 1 [b] = ([], [b]) := by
          simp [runStep, he]
        have hred : beamLoop m 1 (n + 1) [b] [] = ([b], [b]) := by
          rw [beamLoop, hrs]
          simp
        rw [hred]
        exact ⟨by simp [greedyCode, he], Or.inr rfl⟩
      · obtain ⟨t, ht⟩ := argmaxTok_ne_nil (m b.1) (List.range VOCAB_SIZE) (by decide)
        have hexp : expandBeam m 1 b = [(b.1 ++ [t], b.2 + m b.1 t)] := by
          rw [expandBeam, topk_one ht]
          rfl
        have hrs : runStep m 1 [b] = ([(b.1 ++ [t], b.2 + m b.1 t)], []) := by
          simp [runStep, he, hexp]
        have hg : greedyCode m (n + 1) b.1 = greedyCode m n (b.1 ++ [t]) := by
          rw [greedyCode, if_neg he, ht]
        have hred : beamLoop m 1 (n + 1) [b] [] =
            beamLoop m 1 n [(b.1 ++ [t], b.2 + m b.1 t)] [] := by
          rw [beamLoop, hrs]
          simp [sortDesc, insDesc]
        rw [hred, hg]
        exact ih (b.1 ++ [t], b.2 + m b.1 t)

/-- Amended claim C2: for every fixed trace and model weights (every next-token
log-probability oracle), beam search with beam width 1 produces the same
token sequence as greedy decoding that at each step extends by the single
highest-probability token WITHOUT excluding PAD: `predict` never filters PAD
out of candidacy. -/
theorem c2_beam_width_one_greedy (m : M) (maxLen : ℕ) :
    (predict m 1 maxLen).map Prod.fst = [greedyCode m maxLen [SOS_TOKEN]] := by
  obtain ⟨h1, h2⟩ := beamLoop_width_one m maxLen ([SOS_TOKEN], 0)
  obtain ⟨p, hp⟩ : ∃ p : Beam, (beamLoop m 1 maxLen [([SOS_TOKEN], 0)] []).1 = [p] := by
    cases hq : (beamLoop m 1 maxLen [([SOS_TOKEN], 0)] []).1 with
    | nil => rw [hq] at h1; simp at h1
    | cons a l =>
        cases l with
        | nil => exact ⟨a, rfl⟩
        | cons c cs => rw [hq] at h1; simp at h1
  have hpfst : p.1 = greedyCode m maxLen [SOS_TOKEN] := by
    rw [hp] at h1
    simpa using h1
  have hm : mergedBeams m 1 maxLen =
      (beamLoop m 1 maxLen [([SOS_TOKEN], 0)] []).2 ++ [p] := by
    rw [mergedBeams, hp]
  rcases h2 with h2 | h2
  · rw [predict, hm, h2, List.nil_append]
    simp [sortDesc, insDesc, hpfst]
  · rw [predict, hm, h2, hp]
    simp [sortDesc, insDesc, hpfst]

set_option maxRecDepth 200000 in
/-- Counterexample to claim C2 as stated: under an oracle (realizable by
weights making PAD the most likely first token) beam width 1 extends with
PAD, while the spec's PAD-excluding greedy rule picks the letter token 1:
the produced sequences differ. -/
theorem c2_counterexample :
    (predict oraclePadTop 1 22).map Prod.fst = [[27, 0, 28]] ∧
    greedySpec oraclePadTop 22 [SOS_TOKEN] = [27, 1, 28] ∧
    ([[27, 0, 28]] : List (List ℕ)) ≠ [[27, 1, 28]] :=
  ⟨by decide, by decide, by decide⟩

set_option maxRecDepth 200000 in
/-- Claim C10: when every active beam's last token is already EOS, the step
pass moves them to the finished list, the empty candidate pool breaks the
loop, and `finished.extend(beams)` appends the very same beams a second
time: under `oracleTwinEOS` with beam width 2 the returned ranked list
contains the identical (tokens, score) pair twice. -/
theorem c10_duplicate_candidates :
    predict oracleTwinEOS 2 22 =
      [([27, 2, 28], -103/100), ([27, 2, 28], -103/100)] := by decide

/-! ## Claim C5: shape of produced token sequences -/

theorem wordLetterTokens_le (w : List Char) :
    (wordLetterTokens w).length ≤ MAX_WORD_LEN := by
  refine le_trans (List.length_filterMap_le _ _) ?_
  simpa using List.length_take_le _ _

theorem buildTarget_eq (w : List Char) :
    buildTarget w = SOS_TOKEN ::
      (wordLetterTokens w ++ [EOS_TOKEN] ++
        List.replicate (MAX_WORD_LEN - (wordLetterTokens w).length) PAD_TOKEN) := by
  have hc : MAX_WORD_LEN + 2 - (SOS_TOKEN :: wordLetterTokens w ++ [EOS_TOKEN]).length
      = MAX_WORD_LEN - (wordLetterTokens w).length := by
    simp only [List.length_cons, List.length_append, List.length_singleton,
      List.length_nil]
    omega
  simp only [buildTarget]
  rw [hc]
  simp [List.cons_append, List.append_assoc]

theorem buildTarget_length (w : List Char) :
    (buildTarget w).length = MAX_WORD_LEN + 2 := by
  rw [buildTarget_eq]
  have h := wordLetterTokens_le w
  rw [MAX_WORD_LEN] at h ⊢
  simp only [List.length_cons, List.length_append, List.length_singleton,
    List.length_replicate, List.length_nil]
  omega

theorem beamLoop_shape_inv (m : M) (k T : ℕ) : ∀ (n : ℕ) (beams fin : List Beam),
    (∀ b : Beam, b ∈ beams → b.1.head? = some SOS_TOKEN ∧ b.1.length + n ≤ T) →
    (∀ b : Beam, b ∈ fin → b.1.head? = some SOS_TOKEN ∧ b.1.length ≤ T) →
    ∀ b : Beam, (b ∈ (beamLoop m k n beams fin).1 ∨ b ∈ (beamLoop m k n beams fin).2) →
      b.1.head? = some SOS_TOKEN ∧ b.1.length ≤ T := by
  intro n
  induction n with
  | zero =>
      intro beams fin hb hf b hmem
      rcases hmem with h | h
      · obtain ⟨h1, h2⟩ := hb b (by simpa [beamLoop] using h)
        exact ⟨h1, by omega⟩
      · exact hf b (by simpa [beamLoop] using h)
  | succ n ih =>
      intro beams fin hb hf b hmem
      by_cases hc : (runStep m k beams).1 = []
      · rw [beamLoop, if_pos hc] at hmem
        rcases hmem with h | h
        · obtain ⟨h1, h2⟩ := hb b h
          exact ⟨h1, by omega⟩
        · rcases List.mem_append.mp h with h | h
          · exact hf b h
          · obtain ⟨h1, h2⟩ := hb b (runStep_snd_subset h)
            exact ⟨h1, by omega⟩
      · rw [beamLoop, if_neg hc] at hmem
        refine ih _ _ ?_ ?_ b hmem
        · intro q hq
          have hq1 : q ∈ (runStep m k beams).1 :=
            mem_sortDesc.mp (List.mem_of_mem_take hq)
          obtain ⟨p, hp, t, hqt⟩ := runStep_fst_shape hq1
          obtain ⟨h1, h2⟩ := hb p hp
          constructor
          · cases hp1 : p.1 with
            | nil => rw [hp1] at h1; simp at h1
            | cons a tl =>
                rw [hp1] at h1
                simp only [List.head?_cons, Option.some.injEq] at h1
                rw [hqt, hp1, List.cons_append, List.head?_cons, h1]
          · rw [hqt]
            have : (p.1 ++ [t]).length = p.1.length + 1 := by simp
            omega
        · intro q hq
          rcases List.mem_append.mp hq with h | h
          · exact hf q h
          · obtain ⟨h1, h2⟩ := hb q (runStep_snd_subset h)
            exact ⟨h1, by omega⟩

/-- Amended claim C5: every training target is `[SOS] ++ letters ++ [EOS]`
right-padded with PAD to exactly 22 tokens (as the claim states); but a beam
candidate returned by `predict` (run, as in the code, for `MAX_WORD_LEN + 2`
steps) begins with SOS and is only capped at 23 tokens — SOS plus up to 22
generated tokens — and carries no PAD padding, so a candidate that never
emits EOS has 23 tokens, not 22. -/
theorem c5_sequence_shape :
    (∀ w : List Char,
      buildTarget w = SOS_TOKEN ::
        (wordLetterTokens w ++ [EOS_TOKEN] ++
          List.replicate (MAX_WORD_LEN - (wordLetterTokens w).length) PAD_TOKEN) ∧
      (wordLetterTokens w).length ≤ MAX_WORD_LEN ∧
      (buildTarget w).length = MAX_WORD_LEN + 2) ∧
    (∀ (m : M) (k : ℕ) (b : Beam), b ∈ predict m k (MAX_WORD_LEN + 2) →
      b.1.head? = some SOS_TOKEN ∧ b.1.length ≤ MAX_WORD_LEN + 3) := by
  constructor
  · intro w
    exact ⟨buildTarget_eq w, wordLetterTokens_le w, buildTarget_length w⟩
  · intro m k b hb
    have hmem : b ∈ mergedBeams m k (MAX_WORD_LEN + 2) :=
      mem_sortDesc.mp (List.mem_of_mem_take hb)
    have hinit : ∀ q : Beam, q ∈ [(([SOS_TOKEN], 0) : Beam)] →
        q.1.head? = some SOS_TOKEN ∧ q.1.length + (MAX_WORD_LEN + 2) ≤ MAX_WORD_LEN + 3 := by
      intro q hq
      rw [List.mem_singleton] at hq
      subst hq
      exact ⟨rfl, by decide⟩
    have hfin : ∀ q : Beam, q ∈ ([] : List Beam) →
        q.1.head? = some SOS_TOKEN ∧ q.1.length ≤ MAX_WORD_LEN + 3 := by
      intro q hq
      simp at hq
    rcases List.mem_append.mp hmem with h | h
    · exact beamLoop_shape_inv m k (MAX_WORD_LEN + 3) (MAX_WORD_LEN + 2) _ _
        hinit hfin b (Or.inr h)
    · exact beamLoop_shape_inv m k (MAX_WORD_LEN + 3) (MAX_WORD_LEN + 2) _ _
        hinit hfin b (Or.inl h)

set_option maxRecDepth 200000 in
/-- Counterexample to claim C5 as stated: under an oracle that always prefers
the letter token 1 (EOS never wins), the returned candidate has 23 tokens —
above the claimed 22-token cap — contains no EOS and no PAD remainder. -/
theorem c5_counterexample :
    (predict oracleLetterTop 1 22).map Prod.fst = [27 :: List.replicate 22 1] ∧
    (27 :: List.replicate 22 (1 : ℕ)).length = 23 ∧
    EOS_TOKEN ∉ 27 :: List.replicate 22 (1 : ℕ) :=
  ⟨by decide, by decide, by decide⟩

set_option maxRecDepth 200000 in
theorem c5_witness :
    ((([27, 28], (-1 : ℚ)) : Beam) ∈ predict oracleEOSTop 1 (MAX_WORD_LEN + 2)) ∧
    (([27, 28], (-1 : ℚ)) : Beam).1.head? = some SOS_TOKEN ∧
    (([27, 28], (-1 : ℚ)) : Beam).1.length ≤ MAX_WORD_LEN + 3 := by
  refine ⟨by decide, ?_, ?_⟩
  · exact (c5_sequence_shape.2 oracleEOSTop 1 _ (by decide)).1
  · exact (c5_sequence_shape.2 oracleEOSTop 1 _ (by decide)).2

/-! ## Claim C6: rejection of invalid traces -/

theorem extractXYT_none : ∀ {data : List RawPoint},
    (∃ p ∈ data, p.x = none ∨ p.y = none) → extractXYT data = none := by
  intro data
  induction data with
  | nil => intro h; simp at h
  | cons q qs ih =>
      intro h
      obtain ⟨p, hp, hxy⟩ := h
      rcases List.mem_cons.mp hp with rfl | hp
      · rcases hxy with hx | hy
        · cases hqy : p.y <;> simp [extractXYT, hx, hqy]
        · cases hqx : p.x <;> simp [extractXYT, hqx, hy]
      · have hrec := ih ⟨p, hp, hxy⟩
        cases hqx : q.x <;> cases hqy : q.y <;> simp [extractXYT, hqx, hqy, hrec]

/-- Claim C6: a trace with fewer than 2 samples, or with any sample missing
its x or y coordinate, is rejected by the loading/encoding pipeline — it
never yields an encoded sample (and, being skipped, is never retried). -/
theorem c6_encoder_rejects_invalid (word : List Char) (data : List RawPoint)
    (h : data.length < 2 ∨ ∃ p ∈ data, p.x = none ∨ p.y = none) :
    parseFutoRow word data = none := by
  rcases h with h | h
  · rw [parseFutoRow, if_pos (Or.inr (Or.inr h))]
  · by_cases h1 : word = [] ∨ data = [] ∨ data.length < 2
    · rw [parseFutoRow, if_pos h1]
    · rw [parseFutoRow, if_neg h1]
      by_cases h2 : isAlphaStr word = false ∨ MAX_WORD_LEN < word.length
      · rw [if_pos h2]
      · rw [if_neg h2, extractXYT_none h]

theorem c6_witness :
    (([⟨some 1, some 1, none⟩] : List RawPoint).length < 2 ∨
      ∃ p ∈ ([⟨some 1, some 1, none⟩] : List RawPoint), p.x = none ∨ p.y = none) ∧
    parseFutoRow ['h', 'i'] [⟨some 1, some 1, none⟩] = none :=
  ⟨Or.inl (by decide), c6_encoder_rejects_invalid _ _ (Or.inl (by decide))⟩

/-! ## Claim C4: initialization of the PAD embedding row -/

noncomputable def c4embedDraw : Fin 29 → Fin 128 → ℝ := fun _ _ => 1

noncomputable def c4xavierEmbed : Fin 29 → Fin 128 → ℝ := fun _ _ => 1/10

noncomputable def c4xavierProj : Fin 29 → Fin 128 → ℝ := fun _ _ => 1/10

noncomputable def c4initWeight : Fin 29 → Fin 128 → ℝ := fun _ _ => 0

noncomputable def c4initBias : Fin 29 → ℝ := fun _ => 2

def padIdx : Fin 29 := ⟨PAD_TOKEN, by decide⟩

/-- Claim C4 is a code bug: `nn.Embedding(..., padding_idx=PAD_TOKEN)` zeroes
the PAD row, but `_init_weights` then re-applies `xavier_uniform_` to the
2-D `token_embed.weight`, overwriting the PAD row with an admissible Xavier
draw — here the constant 1/10, inside the bound `sqrt(6/(128+29))` — so after
construction the PAD row is nonzero, while biases are indeed untouched. -/
theorem c4_pad_embedding_overwritten :
    XavierDraw c4xavierEmbed ∧
    (∀ j, embeddingReset c4embedDraw padIdx j = 0) ∧
    (∀ j, (constructTransformer c4embedDraw c4xavierEmbed c4xavierProj
      c4initWeight c4initBias).token_embed padIdx j = 1/10) ∧
    ((1 : ℝ)/10 ≠ 0) ∧
    (constructTransformer c4embedDraw c4xavierEmbed c4xavierProj
      c4initWeight c4initBias).output_proj_bias = c4initBias := by
  refine ⟨?_, ?_, fun j => rfl, by norm_num, rfl⟩
  · intro i j
    show |(1 : ℝ)/10| ≤ xavierBound 128 29
    rw [abs_of_pos (by norm_num), xavierBound, Real.le_sqrt' (by norm_num)]
    push_cast
    norm_num
  · intro j
    rfl

/-! ## Claim C8: nearest key at a key's own center -/

set_option maxRecDepth 200000 in
/-- Claim C8: for every letter L of the alphabet, the nearest-key lookup at
the normalized center of L returns L itself. -/
theorem c8_nearest_center_roundtrip :
    ∀ c ∈ ALPHABET, nearest_key (layoutCenter c).1 (layoutCenter c).2 = c := by decide

set_option maxRecDepth 200000 in
theorem c8_witness :
    'Q' ∈ ALPHABET ∧ nearest_key (layoutCenter 'Q').1 (layoutCenter 'Q').2 = 'Q' :=
  ⟨by decide, c8_nearest_center_roundtrip 'Q' (by decide)⟩

/-! ## Claim C9: the proximity vector and its argmax -/

theorem sqDist_nonneg (x y cx cy : ℚ) : 0 ≤ sqDist x y cx cy :=
  add_nonneg (mul_self_nonneg _) (mul_self_nonneg _)

theorem sqDistIdx_cast_nonneg (x y : ℚ) (i : Fin 26) :
    (0 : ℝ) ≤ ((sqDistIdx x y i : ℚ) : ℝ) := by
  exact_mod_cast sqDist_nonneg x y (centerIdx i).1 (centerIdx i).2

theorem key_proximity_pos (x y : ℚ) (i : Fin 26) : 0 < key_proximity x y i := by
  rw [key_proximity]
  have h := Real.sqrt_nonneg ((sqDistIdx x y i : ℚ) : ℝ)
  positivity

theorem key_proximity_le_one (x y : ℚ) (i : Fin 26) : key_proximity x y i ≤ 1 := by
  rw [key_proximity]
  have h := Real.sqrt_nonneg ((sqDistIdx x y i : ℚ) : ℝ)
  rw [div_le_one (by positivity)]
  nlinarith

theorem key_proximity_lt (x y : ℚ) {i j : Fin 26}
    (h : sqDistIdx x y i < sqDistIdx x y j) :
    key_proximity x y j < key_proximity x y i := by
  rw [key_proximity, key_proximity]
  have h0 := sqDistIdx_cast_nonneg x y i
  have hij : ((sqDistIdx x y i : ℚ) : ℝ) < ((sqDistIdx x y j : ℚ) : ℝ) := by
    exact_mod_cast h
  have hs := Real.sqrt_lt_sqrt h0 hij
  have h1 : (0 : ℝ) < 1 + Real.sqrt ((sqDistIdx x y i : ℚ) : ℝ) * 10 := by
    have := Real.sqrt_nonneg ((sqDistIdx x y i : ℚ) : ℝ)
    positivity
  exact one_div_lt_one_div_of_lt h1 (by nlinarith)

theorem key_proximity_congr (x y : ℚ) {i j : Fin 26}
    (h : sqDistIdx x y i = sqDistIdx x y j) :
    key_proximity x y i = key_proximity x y j := by
  rw [key_proximity, key_proximity, h]

theorem key_proximity_le (x y : ℚ) {i j : Fin 26}
    (h : sqDistIdx x y i ≤ sqDistIdx x y j) :
    key_proximity x y j ≤ key_proximity x y i := by
  rcases lt_or_eq_of_le h with h | h
  · exact le_of_lt (key_proximity_lt x y h)
  · exact le_of_eq (key_proximity_congr x y h.symm)

theorem nearestAux_keep (x y : ℚ) : ∀ (l : List (Char × ℚ × ℚ)) (best : Char) (bd : ℚ),
    (∀ e ∈ l, ¬ sqDist x y e.2.1 e.2.2 < bd) →
    nearestAux x y best (some bd) l = best := by
  intro l
  induction l with
  | nil => intro best bd _; rfl
  | cons e rest ih =>
      intro best bd h
      rw [nearestAux, if_neg (h e (List.mem_cons_self _ _))]
      exact ih best bd (fun e' he' => h e' (List.mem_cons_of_mem _ he'))

theorem nearestAux_unique (x y : ℚ) : ∀ (l : List (Char × ℚ × ℚ))
    (e0 : Char × ℚ × ℚ) (best : Char) (bd : Option ℚ),
    e0 ∈ l →
    (∀ e ∈ l, e ≠ e0 → sqDist x y e0.2.1 e0.2.2 < sqDist x y e.2.1 e.2.2) →
    (∀ b : ℚ, bd = some b → sqDist x y e0.2.1 e0.2.2 < b) →
    nearestAux x y best bd l = e0.1 := by
  intro l
  induction l with
  | nil => intro e0 best bd h; simp at h
  | cons e rest ih =>
      intro e0 best bd hmem hstrict hbd
      have hkeep : (∀ e' ∈ rest, ¬ sqDist x y e'.2.1 e'.2.2 < sqDist x y e0.2.1 e0.2.2) := by
        intro e' he'
        by_cases h' : e' = e0
        · subst h'; exact lt_irrefl _
        · exact lt_asymm (hstrict e' (List.mem_cons_of_mem _ he') h')
      by_cases heq : e = e0
      · subst heq
        cases bd with
        | none =>
            rw [nearestAux]
            exact nearestAux_keep x y rest e.1 _ hkeep
        | some b =>
            rw [nearestAux, if_pos (hbd b rfl)]
            exact nearestAux_keep x y rest e.1 _ hkeep
      · have hmem' : e0 ∈ rest := by
          rcases List.mem_cons.mp hmem with h | h
          · exact absurd h.symm heq
          · exact h
        have hstrict' : ∀ e' ∈ rest, e' ≠ e0 →
            sqDist x y e0.2.1 e0.2.2 < sqDist x y e'.2.1 e'.2.2 :=
          fun e' he' => hstrict e' (List.mem_cons_of_mem _ he')
        have hd0e : sqDist x y e0.2.1 e0.2.2 < sqDist x y e.2.1 e.2.2 :=
          hstrict e (List.mem_cons_self _ _) heq
        cases bd with
        | none =>
            rw [nearestAux]
            refine ih e0 e.1 _ hmem' hstrict' ?_
            intro b hb
            injection hb with hb
            rw [← hb]
            exact hd0e
        | some b =>
            by_cases hlt : sqDist x y e.2.1 e.2.2 < b
            · rw [nearestAux, if_pos hlt]
              refine ih e0 e.1 _ hmem' hstrict' ?_
              intro b' hb'
              injection hb' with hb'
              rw [← hb']
              exact hd0e
            · rw [nearestAux, if_neg hlt]
              refine ih e0 best _ hmem' hstrict' ?_
              intro b' hb'
              injection hb' with hb'
              rw [← hb']
              exact hbd b rfl

set_option maxRecDepth 200000 in
theorem layout_entry_center : ∀ e ∈ LAYOUT,
    e.1 ∈ ALPHABET ∧ (layoutCenter e.1).1 = e.2.1 ∧ (layoutCenter e.1).2 = e.2.2 := by
  decide

set_option maxRecDepth 200000 in
theorem layout_mem_of_letter : ∀ c ∈ ALPHABET,
    (c, (layoutCenter c).1, (layoutCenter c).2) ∈ LAYOUT := by
  decide

theorem alphabet_getD_mem : ∀ i : Fin 26, ALPHABET.getD i 'A' ∈ ALPHABET := by decide

theorem alphabet_index_exists : ∀ c ∈ ALPHABET,
    ∃ i : Fin 26, ALPHABET.getD i 'A' = c := by decide

/-- Amended claim C9: every entry of the proximity vector lies in (0, 1]; and
whenever the nearest center is UNIQUE (strictly smaller squared distance than
every other key), the first-argmax of the proximity vector is exactly the
index of the letter returned by the nearest-key lookup.  (At exact ties the
two tie-breaking orders differ — see the counterexample.) -/
theorem c9_proximity_argmax (x y : ℚ) :
    (∀ i : Fin 26, 0 < key_proximity x y i ∧ key_proximity x y i ≤ 1) ∧
    (∀ i : Fin 26, (∀ j : Fin 26, j ≠ i → sqDistIdx x y i < sqDistIdx x y j) →
      IsFirstMax (key_proximity x y) i ∧ nearest_key x y = ALPHABET.getD i 'A') := by
  constructor
  · intro i
    exact ⟨key_proximity_pos x y i, key_proximity_le_one x y i⟩
  · intro i hu
    constructor
    · constructor
      · intro j
        by_cases hji : j = i
        · subst hji; exact le_refl _
        · exact le_of_lt (key_proximity_lt x y (hu j hji))
      · intro j hj
        exact key_proximity_lt x y (hu j (ne_of_lt hj))
    · rw [nearest_key]
      apply nearestAux_unique x y LAYOUT
        (ALPHABET.getD i 'A', (layoutCenter (ALPHABET.getD i 'A')).1,
          (layoutCenter (ALPHABET.getD i 'A')).2)
      · exact layout_mem_of_letter _ (alphabet_getD_mem i)
      · rintro ⟨c, cx, cy⟩ he hne
        obtain ⟨hmemA, hcx, hcy⟩ := layout_entry_center _ he
        obtain ⟨j, hj⟩ := alphabet_index_exists c hmemA
        have hji : j ≠ i := by
          intro h
          subst h
          apply hne
          simp only at hcx hcy hj
          rw [hj, hcx, hcy]
        have hd := hu j hji
        rw [sqDistIdx, sqDistIdx, centerIdx, centerIdx, hj] at hd
        simp only at hcx hcy
        rw [hcx, hcy] at hd
        exact hd
      · intro b hb
        cases hb

def tieX : ℚ := 85/1504

def tieY : ℚ := 16/49

set_option maxRecDepth 200000 in
/-- Counterexample to claim C9 as stated: at the midpoint of the normalized
centers of A and Q the two keys are exactly equidistant; `nearest_key`
(iterating in QWERTY row order) returns Q (alphabet index 16), but the first
maximum of the proximity vector sits at index 0 (A), so `argmax(proximity)`
is not the nearest-key letter there. -/
theorem c9_counterexample :
    nearest_key tieX tieY = 'Q' ∧ letterToIdx 'Q' = 16 ∧
    IsFirstMax (key_proximity tieX tieY) ⟨0, by decide⟩ ∧
    ¬ IsFirstMax (key_proximity tieX tieY) ⟨16, by decide⟩ := by
  have hle : ∀ j : Fin 26, sqDistIdx tieX tieY ⟨0, by decide⟩ ≤ sqDistIdx tieX tieY j := by
    decide
  have heq : sqDistIdx tieX tieY ⟨0, by decide⟩ = sqDistIdx tieX tieY ⟨16, by decide⟩ := by
    decide
  refine ⟨by decide, by decide, ⟨?_, ?_⟩, ?_⟩
  · intro j
    exact key_proximity_le tieX tieY (hle j)
  · intro j hj
    exact absurd hj (by simp [Fin.lt_def])
  · intro hmax
    have h0 : key_proximity tieX tieY ⟨0, by decide⟩ <
        key_proximity tieX tieY ⟨16, by decide⟩ :=
      hmax.2 ⟨0, by decide⟩ (by decide)
    rw [key_proximity_congr tieX tieY heq] at h0
    exact lt_irrefl _ h0

set_option maxRecDepth 200000 in
theorem c9_witness :
    (∀ j : Fin 26, j ≠ ⟨16, by decide⟩ →
      sqDistIdx (layoutCenter 'Q').1 (layoutCenter 'Q').2 ⟨16, by decide⟩ <
        sqDistIdx (layoutCenter 'Q').1 (layoutCenter 'Q').2 j) ∧
    (0 < key_proximity (layoutCenter 'Q').1 (layoutCenter 'Q').2 ⟨0, by decide⟩) ∧
    IsFirstMax (key_proximity (layoutCenter 'Q').1 (layoutCenter 'Q').2) ⟨16, by decide⟩ ∧
    nearest_key (layoutCenter 'Q').1 (layoutCenter 'Q').2 =
      ALPHABET.getD (⟨16, by decide⟩ : Fin 26) 'A' := by
  have hu : ∀ j : Fin 26, j ≠ ⟨16, by decide⟩ →
      sqDistIdx (layoutCenter 'Q').1 (layoutCenter 'Q').2 ⟨16, by decide⟩ <
        sqDistIdx (layoutCenter 'Q').1 (layoutCenter 'Q').2 j := by
    decide
  refine ⟨hu, ?_, ?_, ?_⟩
  · exact ((c9_proximity_argmax (layoutCenter 'Q').1 (layoutCenter 'Q').2).1 ⟨0, by decide⟩).1
  · exact ((c9_proximity_argmax (layoutCenter 'Q').1 (layoutCenter 'Q').2).2 ⟨16, by decide⟩ hu).1
  · exact ((c9_proximity_argmax (layoutCenter 'Q').1 (layoutCenter 'Q').2).2 ⟨16, by decide⟩ hu).2

end Swipe
